import Mathlib

/-!
# To-do list app (`todo-script.js`): store operations and task query

A shallow embedding of the list/task handlers (`saveNewList`, `deleteCurrentList`,
`saveTask`, `deleteTask`, `toggleTaskComplete`) and of `getFilteredTasks`, with the
properties of the store and of the query settled against it.

Conventions of the embedding:
* the global variables `lists`, `currentListId`, `editingTaskId` are the fields of `AppState`,
  passed explicitly; the DOM and `localStorage` writes are not part of the state;
* what a handler reads from the page (input values, the answer to `confirm`) and what it
  draws from the clock or the random source (`generateId()`, `Date.now()`) is an argument;
* a handler returns the next state together with an `Outcome` naming the place it left at;
* the host functions whose result depends on Unicode data are arguments: the collation
  `localeCompare`, and the case conversion of strings that hold a non-ASCII character
  (`unicodeLower`).
-/

namespace Todo

/-! ## Strings -/

/-- White space and line terminators of ECMAScript, the code points `String.prototype.trim`
strips. -/
def isWhiteSpace (c : Char) : Bool :=
  let n := c.toNat
  n == 0x09 || n == 0x0A || n == 0x0B || n == 0x0C || n == 0x0D || n == 0x20 || n == 0xA0
    || n == 0x1680 || (0x2000 ≤ n && n ≤ 0x200A) || n == 0x2028 || n == 0x2029
    || n == 0x202F || n == 0x205F || n == 0x3000 || n == 0xFEFF

/-- Drop the trailing white space of a character sequence. -/
def dropTrailing : List Char → List Char
  | [] => []
  | c :: cs =>
    match dropTrailing cs with
    | [] => if isWhiteSpace c then [] else [c]
    | r => c :: r

/-- The method `String.prototype.trim`: white space removed from both ends. -/
def trim (s : String) : String :=
  ⟨dropTrailing (s.data.dropWhile isWhiteSpace)⟩

/-- Whether a character is in the ASCII range. -/
def isAscii (c : Char) : Bool :=
  c.toNat < 128

/-- Lower-casing of an ASCII character: `A`-`Z` go to `a`-`z`, no other ASCII character
has a case mapping. -/
def lowerAscii (c : Char) : Char :=
  if 65 ≤ c.toNat ∧ c.toNat ≤ 90 then Char.ofNat (c.toNat + 32) else c

/-- The method `String.prototype.toLowerCase`. On a string of ASCII characters it maps
`A`-`Z` to `a`-`z`, character by character. On a string that holds any other character
the result is the Unicode case conversion of the host, the argument `unicodeLower`. -/
def toLowerCase (unicodeLower : String → String) (s : String) : String :=
  if s.data.all isAscii then ⟨s.data.map lowerAscii⟩ else unicodeLower s

/-- Whether `needle` starts the character sequence `hay`. -/
def startsWith : List Char → List Char → Bool
  | _, [] => true
  | [], _ :: _ => false
  | h :: hs, n :: ns => h == n && startsWith hs ns

/-- Whether `needle` occurs in `hay` as a contiguous run. -/
def occursIn : List Char → List Char → Bool
  | [], needle => startsWith [] needle
  | h :: hs, needle => startsWith (h :: hs) needle || occursIn hs needle

/-- The method `String.prototype.includes`. -/
def includes (hay needle : String) : Bool :=
  occursIn hay.data needle.data

/-! ## Data model -/

/-- A task record. `dueDate` is the value of the date-time input: `none` for the empty
value (falsy in the source), `some ms` for a date-time string, held as the time value
`new Date(dueDate)` has. `createdAt` is `Date.now()`, integer milliseconds. -/
structure Task where
  id : String
  title : String
  description : String
  dueDate : Option Int
  completed : Bool
  createdAt : Int
  deriving DecidableEq, Repr

/-- A list record of the `lists` array. -/
structure TodoList where
  id : String
  name : String
  tasks : List Task
  deriving DecidableEq, Repr

/-- The global state of the script. -/
structure AppState where
  lists : List TodoList
  currentListId : Option String
  editingTaskId : Option String
  deriving DecidableEq, Repr

/-- Where a handler left: after `saveDataToStorage()`, at an `alert`, or at one of the
bare `return`s. -/
inductive Outcome where
  | saved
  | alerted (msg : String)
  | noSelection
  | listMissing
  | taskMissing
  | declined
  deriving DecidableEq, Repr

/-- Truthiness of an id variable: `null` and the empty string are falsy. -/
def truthy : Option String → Bool
  | none => false
  | some v => v != ""

/-! ## Sorting -/

/-- Insert `a` in front of the first element it does not have to follow. -/
def insertSorted {α : Type} (cmp : α → α → Int) (a : α) : List α → List α
  | [] => [a]
  | b :: l => if cmp a b ≤ 0 then a :: b :: l else b :: insertSorted cmp a l

/-- The method `Array.prototype.sort(compareFn)`: `a` comes before `b` when
`compareFn(a, b) < 0`, and elements that compare `0` keep their order (the sort is stable,
as ECMAScript requires). For a consistent comparator that fixes the result, which is
computed here by insertion from the right. -/
def arraySort {α : Type} (cmp : α → α → Int) : List α → List α
  | [] => []
  | a :: l => insertSorted cmp a (arraySort cmp l)

/-- The comparator of the `due-date` case. -/
def compareDueDate (a b : Task) : Int :=
  match a.dueDate, b.dueDate with
  | none, none => 0
  | none, some _ => 1
  | some _, none => -1
  | some x, some y => x - y

/-- The comparator of the `date-created` and default case. -/
def compareCreated (a b : Task) : Int :=
  b.createdAt - a.createdAt

/-- The comparator handed to `tasks.sort`, by the value of the sort select. The collation
`String.prototype.localeCompare` is a parameter. -/
def compareTasks (localeCompare : String → String → Int) (sortValue : String)
    (a b : Task) : Int :=
  if sortValue = "due-date" then compareDueDate a b
  else if sortValue = "title" then localeCompare a.title b.title
  else compareCreated a b

/-! ## The query -/

/-- The test of the search filter for the term `searchTerm`. -/
def matchesSearch (unicodeLower : String → String) (searchTerm : String) (task : Task) :
    Bool :=
  includes (toLowerCase unicodeLower task.title) searchTerm
    || (task.description != ""
        && includes (toLowerCase unicodeLower task.description) searchTerm)

/-- The body of `getFilteredTasks` from the copy `[...list.tasks]` on: search filter,
completion filter, sort. -/
def visibleTasks (localeCompare : String → String → Int) (unicodeLower : String → String)
    (tasks : List Task) (searchValue filterValue sortValue : String) : List Task :=
  let searchTerm := trim (toLowerCase unicodeLower searchValue)
  let tasks :=
    if searchTerm != "" then tasks.filter (matchesSearch unicodeLower searchTerm) else tasks
  let tasks :=
    if filterValue = "active" then tasks.filter (fun task => !task.completed)
    else if filterValue = "completed" then tasks.filter (fun task => task.completed)
    else tasks
  arraySort (compareTasks localeCompare sortValue) tasks

/-- The function `getFilteredTasks`: the visible tasks of the current list, none when
there is no such list. -/
def getFilteredTasks (localeCompare : String → String → Int)
    (unicodeLower : String → String) (s : AppState)
    (searchValue filterValue sortValue : String) : List Task :=
  match s.lists.find? (fun l => s.currentListId == some l.id) with
  | none => []
  | some list =>
    visibleTasks localeCompare unicodeLower list.tasks searchValue filterValue sortValue

/-! ## The store handlers -/

/-- The call `array.find(pred)` followed by a mutation of the object found: the first
element that satisfies `p` is replaced by its image under `f`. -/
def updateFirst {α : Type} (p : α → Bool) (f : α → α) : List α → List α
  | [] => []
  | x :: xs => if p x then f x :: xs else x :: updateFirst p f xs

/-- The lookup `lists.find(l => l.id === currentListId)`. -/
def findList (s : AppState) : Option TodoList :=
  s.lists.find? (fun l => s.currentListId == some l.id)

/-- The function `createDefaultLists`, with the three generated ids as arguments. -/
def createDefaultLists (id1 id2 id3 : String) : List TodoList :=
  [ { id := id1, name := "Work", tasks := [] },
    { id := id2, name := "Personal", tasks := [] },
    { id := id3, name := "Shopping", tasks := [] } ]

/-- The function `selectList`: the selection moves to `listId`. -/
def selectList (s : AppState) (listId : String) : AppState :=
  { s with currentListId := some listId }

/-- The function `saveNewList`; `inputValue` is `newListInput.value` and `newId` the
result of `generateId()`. -/
def saveNewList (unicodeLower : String → String) (s : AppState)
    (inputValue newId : String) : AppState × Outcome :=
  let listName := trim inputValue
  if listName = "" then (s, Outcome.alerted "Please enter a list name")
  else if s.lists.any (fun list =>
      toLowerCase unicodeLower list.name == toLowerCase unicodeLower listName) then
    (s, Outcome.alerted "A list with this name already exists")
  else
    let newList : TodoList := { id := newId, name := listName, tasks := [] }
    (selectList { s with lists := s.lists ++ [newList] } newList.id, Outcome.saved)

/-- The function `deleteCurrentList`; `confirmed` is the answer to `confirm`. -/
def deleteCurrentList (s : AppState) (confirmed : Bool) : AppState × Outcome :=
  if !truthy s.currentListId then (s, Outcome.noSelection)
  else
    match findList s with
    | none => (s, Outcome.listMissing)
    | some _ =>
      if !confirmed then (s, Outcome.declined)
      else
        let lists := s.lists.filter (fun l => s.currentListId != some l.id)
        let s1 : AppState := { s with lists := lists, currentListId := none }
        match lists with
        | [] => (s1, Outcome.saved)
        | first :: _ => (selectList s1 first.id, Outcome.saved)

/-- The current list with its `tasks` array changed by `f`. -/
def withTasks (f : List Task → List Task) (list : TodoList) : TodoList :=
  { list with tasks := f list.tasks }

/-- The three assignments of the edit branch of `saveTask`. -/
def overwriteTask (title description : String) (dueDate : Option Int) (task : Task) : Task :=
  { task with title := title, description := description, dueDate := dueDate }

/-- The assignment `task.completed = !task.completed`. -/
def flipCompleted (task : Task) : Task :=
  { task with completed := !task.completed }

/-- The function `saveTask`; the three input values, and `newId`, `now` for
`generateId()` and `Date.now()`. The form is hidden at the end, which clears
`editingTaskId`. -/
def saveTask (s : AppState) (titleValue descValue : String) (dateValue : Option Int)
    (newId : String) (now : Int) : AppState × Outcome :=
  let title := trim titleValue
  let description := trim descValue
  let dueDate := dateValue
  if title = "" then (s, Outcome.alerted "Please enter a task title")
  else
    match findList s with
    | none => (s, Outcome.listMissing)
    | some _ =>
      let isCurrent := fun (l : TodoList) => s.currentListId == some l.id
      let lists :=
        if truthy s.editingTaskId then
          updateFirst isCurrent
            (withTasks (updateFirst (fun t => s.editingTaskId == some t.id)
              (overwriteTask title description dueDate)))
            s.lists
        else
          let newTask : Task :=
            { id := newId, title := title, description := description, dueDate := dueDate,
              completed := false, createdAt := now }
          updateFirst isCurrent (withTasks (fun tasks => tasks ++ [newTask])) s.lists
      ({ s with lists := lists, editingTaskId := none }, Outcome.saved)

/-- The function `deleteTask`; `confirmed` is the answer to `confirm`. -/
def deleteTask (s : AppState) (taskId : String) (confirmed : Bool) : AppState × Outcome :=
  if !confirmed then (s, Outcome.declined)
  else
    match findList s with
    | none => (s, Outcome.listMissing)
    | some _ =>
      let lists := updateFirst (fun l => s.currentListId == some l.id)
        (withTasks (fun tasks => tasks.filter (fun t => t.id != taskId))) s.lists
      ({ s with lists := lists }, Outcome.saved)

/-- The function `toggleTaskComplete`. -/
def toggleTaskComplete (s : AppState) (taskId : String) : AppState × Outcome :=
  match findList s with
  | none => (s, Outcome.listMissing)
  | some list =>
    match list.tasks.find? (fun t => t.id == taskId) with
    | none => (s, Outcome.taskMissing)
    | some _ =>
      let lists := updateFirst (fun l => s.currentListId == some l.id)
        (withTasks (updateFirst (fun t => t.id == taskId) flipCompleted)) s.lists
      ({ s with lists := lists }, Outcome.saved)

/-! ## The store operations

Each operation of the store is the handler run with the selection (and the edit target)
set to the ids the operation names, and with the confirmation given. -/

namespace Store

/-- Operation `createList(name)`. -/
def createList (unicodeLower : String → String) (s : AppState) (name newId : String) :
    AppState × Outcome :=
  saveNewList unicodeLower s name newId

/-- Operation `deleteList(listId)`. -/
def deleteList (s : AppState) (listId : String) : AppState × Outcome :=
  deleteCurrentList (selectList s listId) true

/-- Operation `createTask(listId, title, description, dueDate)`. -/
def createTask (s : AppState) (listId title description : String) (dueDate : Option Int)
    (newId : String) (now : Int) : AppState × Outcome :=
  saveTask { s with currentListId := some listId, editingTaskId := none }
    title description dueDate newId now

/-- Operation `updateTask(listId, taskId, title, description, dueDate)`: `saveTask` in
the state `editTask(taskId)` leaves. -/
def updateTask (s : AppState) (listId taskId title description : String)
    (dueDate : Option Int) (newId : String) (now : Int) : AppState × Outcome :=
  saveTask { s with currentListId := some listId, editingTaskId := some taskId }
    title description dueDate newId now

/-- Operation `deleteTask(listId, taskId)`. -/
def deleteTask (s : AppState) (listId taskId : String) : AppState × Outcome :=
  Todo.deleteTask (selectList s listId) taskId true

/-- Operation `toggleComplete(listId, taskId)`. -/
def toggleComplete (s : AppState) (listId taskId : String) : AppState × Outcome :=
  toggleTaskComplete (selectList s listId) taskId

end Store

/-- A call of one of the six store operations, with what it draws from outside. -/
inductive Op where
  | createList (name newId : String)
  | deleteList (listId : String)
  | createTask (listId title description : String) (dueDate : Option Int)
      (newId : String) (now : Int)
  | updateTask (listId taskId title description : String) (dueDate : Option Int)
      (newId : String) (now : Int)
  | deleteTask (listId taskId : String)
  | toggleComplete (listId taskId : String)

/-- The state after one call. -/
def step (unicodeLower : String → String) (s : AppState) : Op → AppState
  | Op.createList name newId => (Store.createList unicodeLower s name newId).1
  | Op.deleteList listId => (Store.deleteList s listId).1
  | Op.createTask listId title description dueDate newId now =>
    (Store.createTask s listId title description dueDate newId now).1
  | Op.updateTask listId taskId title description dueDate newId now =>
    (Store.updateTask s listId taskId title description dueDate newId now).1
  | Op.deleteTask listId taskId => (Store.deleteTask s listId taskId).1
  | Op.toggleComplete listId taskId => (Store.toggleComplete s listId taskId).1

/-- The state after a sequence of calls. -/
def run (unicodeLower : String → String) (s : AppState) (ops : List Op) : AppState :=
  ops.foldl (step unicodeLower) s

/-- The state `init` reaches when nothing is stored: the default lists, the first one
selected. -/
def seedState (id1 id2 id3 : String) : AppState :=
  { lists := createDefaultLists id1 id2 id3, currentListId := some id1,
    editingTaskId := none }

/-! ## Sample states -/

/-- A case conversion for the strings that hold a non-ASCII character, to evaluate the
handlers at inputs made of ASCII characters only, where `toLowerCase` does not consult it. -/
def noCaseMap : String → String :=
  fun s => s

/-- A state with one list `a` that holds the task `t`, then the task `u`. -/
def sampleState : AppState :=
  { lists :=
      [ { id := "a", name := "Work",
          tasks := [ { id := "t", title := "x", description := "", dueDate := some 3,
                       completed := false, createdAt := 1 },
                     { id := "u", title := "y", description := "", dueDate := none,
                       completed := true, createdAt := 2 } ] } ],
    currentListId := some "a", editingTaskId := none }

/-- A state whose only list is `a`. -/
def singleListState : AppState :=
  { lists := [{ id := "a", name := "Work", tasks := [] }],
    currentListId := some "a", editingTaskId := none }

/-! ## The filters in the words of the specification -/

/-- Search text that is empty or white space only. -/
def isBlank (searchText : String) : Bool :=
  searchText.data.all isWhiteSpace

/-- Containment ignoring case: the lower-cased `text` includes the lower-cased `part`. -/
def containsIgnoreCase (unicodeLower : String → String) (text part : String) : Bool :=
  includes (toLowerCase unicodeLower text) (toLowerCase unicodeLower part)

/-- The search filter as stated: the search text is blank, or the title or the present
description contains the search text ignoring case. -/
def searchPassesAsStated (unicodeLower : String → String) (searchText : String)
    (t : Task) : Bool :=
  isBlank searchText || containsIgnoreCase unicodeLower t.title searchText
    || (t.description != "" && containsIgnoreCase unicodeLower t.description searchText)

/-- The search filter on the trimmed search text: with `term` the search text lower-cased
and trimmed, every task passes when `term` is empty, and otherwise a task passes when its
lower-cased title, or its present description lower-cased, contains `term`. -/
def searchPasses (unicodeLower : String → String) (searchText : String) (t : Task) : Bool :=
  trim (toLowerCase unicodeLower searchText) == ""
    || includes (toLowerCase unicodeLower t.title) (trim (toLowerCase unicodeLower searchText))
    || (t.description != ""
        && includes (toLowerCase unicodeLower t.description)
            (trim (toLowerCase unicodeLower searchText)))

/-- The completion filter: `active` passes the tasks not completed, `completed` the
completed ones, any other value all tasks. -/
def completionPasses (filterValue : String) (t : Task) : Bool :=
  if filterValue = "active" then t.completed = false
  else if filterValue = "completed" then t.completed = true
  else true

end Todo

namespace Todo

/-! ## Sorting lemmas -/

theorem insertSorted_perm {α : Type} (cmp : α → α → Int) (a : α) (l : List α) :
    (insertSorted cmp a l).Perm (a :: l) := by
  induction l with
  | nil => exact List.Perm.refl _
  | cons b l ih =>
    unfold insertSorted
    split
    · exact List.Perm.refl _
    · exact (List.Perm.cons b ih).trans (List.Perm.swap a b l)

theorem arraySort_perm {α : Type} (cmp : α → α → Int) (l : List α) :
    (arraySort cmp l).Perm l := by
  induction l with
  | nil => exact List.Perm.refl _
  | cons a l ih =>
    exact (insertSorted_perm cmp a (arraySort cmp l)).trans (List.Perm.cons a ih)

theorem insertSorted_pairwise {α : Type} (cmp : α → α → Int)
    (total : ∀ a b, cmp a b ≤ 0 ∨ cmp b a ≤ 0)
    (trans : ∀ a b c, cmp a b ≤ 0 → cmp b c ≤ 0 → cmp a c ≤ 0)
    (a : α) (l : List α) (hl : l.Pairwise (fun x y => cmp x y ≤ 0)) :
    (insertSorted cmp a l).Pairwise (fun x y => cmp x y ≤ 0) := by
  induction l with
  | nil => simp [insertSorted]
  | cons b l ih =>
    have hb := List.pairwise_cons.mp hl
    unfold insertSorted
    split
    · rename_i hab
      refine List.pairwise_cons.mpr ⟨?_, hl⟩
      intro c hc
      rcases List.mem_cons.mp hc with rfl | hc
      · exact hab
      · exact trans a b c hab (hb.1 c hc)
    · rename_i hab
      refine List.pairwise_cons.mpr ⟨?_, ih hb.2⟩
      intro c hc
      have hc2 := (insertSorted_perm cmp a l).mem_iff.mp hc
      rcases List.mem_cons.mp hc2 with rfl | hc2
      · exact (total c b).resolve_left hab
      · exact hb.1 c hc2

theorem arraySort_pairwise {α : Type} (cmp : α → α → Int)
    (total : ∀ a b, cmp a b ≤ 0 ∨ cmp b a ≤ 0)
    (trans : ∀ a b c, cmp a b ≤ 0 → cmp b c ≤ 0 → cmp a c ≤ 0) (l : List α) :
    (arraySort cmp l).Pairwise (fun x y => cmp x y ≤ 0) := by
  induction l with
  | nil => simp [arraySort]
  | cons a l ih => exact insertSorted_pairwise cmp total trans a _ ih

theorem filter_insertSorted_pos {α : Type} (cmp : α → α → Int) (p : α → Bool) (a : α)
    (hp : p a = true) (hcmp : ∀ b, p b = true → cmp a b ≤ 0) (l : List α) :
    (insertSorted cmp a l).filter p = a :: l.filter p := by
  induction l with
  | nil => simp [insertSorted, hp]
  | cons b l ih =>
    unfold insertSorted
    split
    · simp [List.filter_cons, hp]
    · rename_i hab
      have hb : p b = false := by
        cases hpb : p b with
        | false => rfl
        | true => exact absurd (hcmp b hpb) hab
      simp [List.filter_cons, hb, ih]

theorem filter_insertSorted_neg {α : Type} (cmp : α → α → Int) (p : α → Bool) (a : α)
    (hp : p a = false) (l : List α) :
    (insertSorted cmp a l).filter p = l.filter p := by
  induction l with
  | nil => simp [insertSorted, hp]
  | cons b l ih =>
    unfold insertSorted
    split
    · simp [List.filter_cons, hp]
    · simp [List.filter_cons, ih]

/-- Stability: elements that compare `0` among themselves come out in their input order. -/
theorem filter_arraySort {α : Type} (cmp : α → α → Int) (p : α → Bool)
    (hcmp : ∀ a b, p a = true → p b = true → cmp a b ≤ 0) (l : List α) :
    (arraySort cmp l).filter p = l.filter p := by
  induction l with
  | nil => rfl
  | cons a l ih =>
    show (insertSorted cmp a (arraySort cmp l)).filter p = (a :: l).filter p
    cases hpa : p a with
    | true =>
      rw [filter_insertSorted_pos cmp p a hpa (fun b hb => hcmp a b hpa hb), ih]
      simp [List.filter_cons, hpa]
    | false =>
      rw [filter_insertSorted_neg cmp p a hpa, ih]
      simp [List.filter_cons, hpa]

/-! ## The query: lemmas -/

theorem compareTasks_created (lc : String → String → Int) :
    compareTasks lc "date-created" = compareCreated := by
  funext a b
  simp [compareTasks]

theorem compareTasks_dueDate (lc : String → String → Int) :
    compareTasks lc "due-date" = compareDueDate := by
  funext a b
  simp [compareTasks]

theorem compareDueDate_total (a b : Task) :
    compareDueDate a b ≤ 0 ∨ compareDueDate b a ≤ 0 := by
  unfold compareDueDate
  cases a.dueDate <;> cases b.dueDate <;> simp
  omega

theorem compareDueDate_trans (a b c : Task) (hab : compareDueDate a b ≤ 0)
    (hbc : compareDueDate b c ≤ 0) : compareDueDate a c ≤ 0 := by
  unfold compareDueDate at *
  cases ha : a.dueDate <;> cases hb : b.dueDate <;> cases hc : c.dueDate <;>
    simp [ha, hb, hc] at hab hbc ⊢
  omega

/-- The query is the sort of the tasks its two filters keep. -/
theorem visibleTasks_eq_sort (lc : String → String → Int) (u : String → String)
    (tasks : List Task) (searchValue filterValue sortValue : String) :
    ∃ kept : List Task, kept.Sublist tasks ∧
      visibleTasks lc u tasks searchValue filterValue sortValue
        = arraySort (compareTasks lc sortValue) kept := by
  unfold visibleTasks
  refine ⟨_, ?_, rfl⟩
  have h1 : (if (trim (toLowerCase u searchValue) != "") = true
      then tasks.filter (matchesSearch u (trim (toLowerCase u searchValue)))
      else tasks).Sublist tasks := by
    split
    · exact List.filter_sublist _
    · exact List.Sublist.refl _
  split
  · exact (List.filter_sublist _).trans h1
  · split
    · exact (List.filter_sublist _).trans h1
    · exact h1

/-! ## Lemmas on `updateFirst` and the lookups -/

theorem updateFirst_split {α : Type} (p : α → Bool) (f : α → α) (pre : List α) (x : α)
    (post : List α) (hpre : ∀ y ∈ pre, p y = false) (hx : p x = true) :
    updateFirst p f (pre ++ x :: post) = pre ++ f x :: post := by
  induction pre with
  | nil => simp [updateFirst, hx]
  | cons y pre ih =>
    have hy : p y = false := hpre y (List.mem_cons_self _ _)
    have ih2 := ih (fun z hz => hpre z (List.mem_cons_of_mem _ hz))
    simp [updateFirst, hy, ih2]

theorem find_split {α : Type} (p : α → Bool) (pre : List α) (x : α)
    (post : List α) (hpre : ∀ y ∈ pre, p y = false) (hx : p x = true) :
    (pre ++ x :: post).find? p = some x := by
  induction pre with
  | nil => simp [hx]
  | cons y pre ih =>
    have hy : p y = false := hpre y (List.mem_cons_self _ _)
    have ih2 := ih (fun z hz => hpre z (List.mem_cons_of_mem _ hz))
    simp [List.find?_cons, hy, ih2]

theorem map_updateFirst {α β : Type} (p : α → Bool) (f : α → α) (g : α → β)
    (hg : ∀ x, g (f x) = g x) (l : List α) :
    (updateFirst p f l).map g = l.map g := by
  induction l with
  | nil => rfl
  | cons x l ih =>
    unfold updateFirst
    split
    · simp [hg]
    · simp [ih]

theorem updateFirst_twice {α : Type} (p : α → Bool) (f : α → α)
    (hp : ∀ x, p (f x) = p x) (l : List α) :
    updateFirst p f (updateFirst p f l) = updateFirst p (fun x => f (f x)) l := by
  induction l with
  | nil => rfl
  | cons x l ih =>
    by_cases hx : p x = true
    · simp [updateFirst, hx, hp]
    · simp [updateFirst, hx, ih]

theorem updateFirst_self {α : Type} (p : α → Bool) (f : α → α)
    (l : List α) (hf : ∀ x ∈ l, f x = x) :
    updateFirst p f l = l := by
  induction l with
  | nil => rfl
  | cons x l ih =>
    have hx := hf x (List.mem_cons_self _ _)
    have ih2 := ih (fun z hz => hf z (List.mem_cons_of_mem _ hz))
    unfold updateFirst
    split
    · rw [hx]
    · rw [ih2]

theorem updateFirst_of_not {α : Type} (p : α → Bool) (f : α → α)
    (l : List α) (h : ∀ x ∈ l, p x = false) : updateFirst p f l = l := by
  induction l with
  | nil => rfl
  | cons x l ih =>
    have hx := h x (List.mem_cons_self _ _)
    have ih2 := ih (fun z hz => h z (List.mem_cons_of_mem _ hz))
    simp [updateFirst, hx, ih2]

theorem updateFirst_of_find_none {α : Type} (p : α → Bool) (f : α → α)
    (l : List α) (h : l.find? p = none) : updateFirst p f l = l := by
  apply updateFirst_of_not
  intro x hx
  have := List.find?_eq_none.mp h x hx
  simpa using this

theorem flipCompleted_twice (t : Task) : flipCompleted (flipCompleted t) = t := by
  cases t
  simp [flipCompleted]

/-- The lists `toggleTaskComplete` leaves, whichever way it returns. -/
theorem toggleTaskComplete_lists (s : AppState) (taskId : String) :
    (toggleTaskComplete s taskId).1.lists
      = updateFirst (fun l => s.currentListId == some l.id)
          (withTasks (updateFirst (fun t => t.id == taskId) flipCompleted)) s.lists
    ∧ (toggleTaskComplete s taskId).1.currentListId = s.currentListId := by
  unfold toggleTaskComplete
  cases hfl : findList s with
  | none =>
    simp only []
    exact ⟨(updateFirst_of_find_none _ _ _ hfl).symm, by trivial⟩
  | some list =>
    simp only []
    cases hft : list.tasks.find? (fun t => t.id == taskId) with
    | none =>
      simp only []
      refine ⟨?_, by trivial⟩
      symm
      -- the list found is left as it is
      unfold findList at hfl
      generalize s.lists = ls at hfl
      induction ls with
      | nil => rfl
      | cons x ls ih =>
        by_cases hx : (s.currentListId == some x.id) = true
        · simp [List.find?_cons, hx] at hfl
          subst hfl
          simp [updateFirst, hx, withTasks, updateFirst_of_find_none _ _ _ hft]
        · simp [List.find?_cons, hx] at hfl
          simp [updateFirst, hx, ih hfl]
    | some _ => exact ⟨rfl, rfl⟩

theorem saveNewList_namesUnique (u : String → String) (s : AppState) (name newId : String)
    (h : (s.lists.map (fun l => toLowerCase u l.name)).Nodup) :
    ((saveNewList u s name newId).1.lists.map (fun l => toLowerCase u l.name)).Nodup := by
  unfold saveNewList
  simp only []
  split
  · exact h
  · split
    · exact h
    · rename_i hany
      simp only [selectList, List.map_append, List.map_cons, List.map_nil]
      refine List.Nodup.append h (List.nodup_singleton _) ?_
      rw [List.disjoint_singleton]  
      intro hmem
      apply hany
      obtain ⟨l, hl, hleq⟩ := List.mem_map.mp hmem
      simp only [List.any_eq_true, beq_iff_eq]
      exact ⟨l, hl, hleq⟩

theorem withTasks_name (u : String → String) (f : List Task → List Task) (l : TodoList) :
    toLowerCase u (withTasks f l).name = toLowerCase u l.name := rfl

theorem step_namesUnique (u : String → String) (s : AppState) (op : Op)
    (h : (s.lists.map (fun l => toLowerCase u l.name)).Nodup) :
    ((step u s op).lists.map (fun l => toLowerCase u l.name)).Nodup := by
  cases op with
  | createList name newId => exact saveNewList_namesUnique u s name newId h
  | deleteList listId =>
    show ((deleteCurrentList (selectList s listId) true).1.lists.map _).Nodup
    have hsub : ∀ p : TodoList → Bool,
        ((s.lists.filter p).map (fun l => toLowerCase u l.name)).Nodup :=
      fun p => h.sublist ((List.filter_sublist _).map _)
    unfold deleteCurrentList
    split
    · exact h
    · split
      · exact h
      · simp only [Bool.not_true, Bool.false_eq_true, ↓reduceIte]
        split
        · rename_i heq
          simp only [selectList] at heq ⊢
          rw [heq]
          simp
        · rename_i first rest heq
          simp only [selectList] at heq ⊢
          rw [heq]
          have := hsub (fun l => some listId != some l.id)
          rw [heq] at this
          exact this
  | createTask listId title description dueDate newId now =>
    show ((saveTask _ title description dueDate newId now).1.lists.map _).Nodup
    unfold saveTask
    simp only []
    split
    · exact h
    · split
      · exact h
      · simp only [truthy, Bool.false_eq_true, ↓reduceIte]
        rw [map_updateFirst _ _ _ (withTasks_name u _)]
        exact h
  | updateTask listId taskId title description dueDate newId now =>
    show ((saveTask _ title description dueDate newId now).1.lists.map _).Nodup
    unfold saveTask
    simp only []
    split
    · exact h
    · split
      · exact h
      · simp only []
        split
        · rw [map_updateFirst _ _ _ (withTasks_name u _)]
          exact h
        · rw [map_updateFirst _ _ _ (withTasks_name u _)]
          exact h
  | deleteTask listId taskId =>
    show ((Todo.deleteTask (selectList s listId) taskId true).1.lists.map _).Nodup
    unfold Todo.deleteTask
    simp only [Bool.not_true, Bool.false_eq_true, ↓reduceIte]
    split
    · exact h
    · simp only []
      rw [map_updateFirst _ _ _ (withTasks_name u _)]
      exact h
  | toggleComplete listId taskId =>
    show ((toggleTaskComplete (selectList s listId) taskId).1.lists.map _).Nodup
    rw [(toggleTaskComplete_lists _ taskId).1, map_updateFirst _ _ _ (withTasks_name u _)]
    exact h

/-! ## The claims -/

/-- Claim C1: with empty search text, the filter value `all` and the sort value
`date-created`, the query returns a permutation of its input in which `createdAt` never
increases from one task to a later one, and the tasks of one `createdAt` value are in
their input order. -/
theorem visibleTasks_default_perm_sorted_stable (localeCompare : String → String → Int)
    (unicodeLower : String → String) (tasks : List Task) :
    (visibleTasks localeCompare unicodeLower tasks "" "all" "date-created").Perm tasks
    ∧ (visibleTasks localeCompare unicodeLower tasks "" "all" "date-created").Pairwise
        (fun a b => b.createdAt ≤ a.createdAt)
    ∧ ∀ c : Int,
        (visibleTasks localeCompare unicodeLower tasks "" "all" "date-created").filter
            (fun t => t.createdAt == c)
          = tasks.filter (fun t => t.createdAt == c) := by
  have hv : visibleTasks localeCompare unicodeLower tasks "" "all" "date-created"
      = arraySort compareCreated tasks := by
    have ht : trim (toLowerCase unicodeLower "") = "" := rfl
    unfold visibleTasks
    rw [compareTasks_created, ht]
    simp
  rw [hv]
  refine ⟨arraySort_perm _ _, ?_, ?_⟩
  · have h := arraySort_pairwise compareCreated
      (fun a b => by unfold compareCreated; omega)
      (fun a b c h1 h2 => by unfold compareCreated at *; omega) tasks
    exact h.imp (fun {a b} hab => by unfold compareCreated at hab; omega)
  · intro c
    apply filter_arraySort
    intro a b ha hb
    have ha2 : a.createdAt = c := by simpa using ha
    have hb2 : b.createdAt = c := by simpa using hb
    unfold compareCreated
    omega

/-- Claim C2: with the sort value `due-date`, whatever the search text and the filter
value, no task without a due date comes before a task with one, and of two tasks with a
due date the earlier in the result has the smaller or equal due date. -/
theorem visibleTasks_dueDate_sorted (localeCompare : String → String → Int)
    (unicodeLower : String → String) (tasks : List Task) (searchValue filterValue : String) :
    (visibleTasks localeCompare unicodeLower tasks searchValue filterValue "due-date").Pairwise
      (fun a b => (a.dueDate = none → b.dueDate = none)
        ∧ ∀ x y : Int, a.dueDate = some x → b.dueDate = some y → x ≤ y) := by
  obtain ⟨kept, -, hv⟩ :=
    visibleTasks_eq_sort localeCompare unicodeLower tasks searchValue filterValue "due-date"
  rw [hv, compareTasks_dueDate]
  refine (arraySort_pairwise compareDueDate compareDueDate_total compareDueDate_trans kept).imp
    ?_
  intro a b hab
  unfold compareDueDate at hab
  constructor
  · intro ha
    cases hb : b.dueDate with
    | none => rfl
    | some y => simp [ha, hb] at hab
  · intro x y ha hb
    simp [ha, hb] at hab
    omega

/-- Claim C3 (as stated, refuted): for the search text `" milk"` the query returns the
task titled `milk`, which does not contain the search text. -/
theorem visibleTasks_search_untrimmed_counterexample :
    visibleTasks (fun _ _ => 0) noCaseMap
        [{ id := "t1", title := "milk", description := "", dueDate := none,
           completed := false, createdAt := 1 }] " milk" "all" "date-created"
      = [{ id := "t1", title := "milk", description := "", dueDate := none,
           completed := false, createdAt := 1 }]
    ∧ searchPassesAsStated noCaseMap " milk"
        { id := "t1", title := "milk", description := "", dueDate := none,
          completed := false, createdAt := 1 } = false := by
  decide

/-- Claim C3 (amended): whatever the sort value, the query returns, each once, exactly the
input tasks that pass the search filter taken on the lower-cased and trimmed search text
and the completion filter. -/
theorem visibleTasks_perm_filter (localeCompare : String → String → Int)
    (unicodeLower : String → String) (tasks : List Task)
    (searchValue filterValue sortValue : String) :
    (visibleTasks localeCompare unicodeLower tasks searchValue filterValue sortValue).Perm
      (tasks.filter (fun t =>
        searchPasses unicodeLower searchValue t && completionPasses filterValue t)) := by
  unfold visibleTasks
  refine (arraySort_perm _ _).trans ?_
  have hs : (if (trim (toLowerCase unicodeLower searchValue) != "") = true
      then tasks.filter (matchesSearch unicodeLower (trim (toLowerCase unicodeLower searchValue)))
      else tasks)
      = tasks.filter (searchPasses unicodeLower searchValue) := by
    by_cases ht : trim (toLowerCase unicodeLower searchValue) = ""
    · have hall : searchPasses unicodeLower searchValue = fun _ => true := by
        funext t
        simp [searchPasses, ht]
      simp [ht, hall]
    · simp only [bne_iff_ne, ne_eq, ht, not_false_eq_true, ↓reduceIte]
      have hb : (trim (toLowerCase unicodeLower searchValue) == "") = false :=
        beq_eq_false_iff_ne.mpr ht
      congr 1
      funext t
      simp only [matchesSearch, searchPasses, hb, Bool.false_or]
  simp only [hs]
  have hf : ∀ l : List Task,
      (if filterValue = "active" then l.filter (fun task => !task.completed)
        else if filterValue = "completed" then l.filter (fun task => task.completed)
        else l) = l.filter (completionPasses filterValue) := by
    intro l
    unfold completionPasses
    by_cases h1 : filterValue = "active"
    · simp [h1]
    · by_cases h2 : filterValue = "completed"
      · simp [h2]
      · simp [h1, h2]
  rw [hf, List.filter_filter]
  apply List.Perm.of_eq
  congr 1
  funext t
  exact Bool.and_comm _ _

/-- Claim C4: a name whose trimmed form is non-empty and equals the name of an existing
list ignoring case is rejected by `createList` with the duplicate-name alert, and the
state is left as it was. -/
theorem createList_duplicate_rejected (unicodeLower : String → String) (s : AppState)
    (name newId : String) (hne : trim name ≠ "")
    (hdup : ∃ l ∈ s.lists,
      toLowerCase unicodeLower l.name = toLowerCase unicodeLower (trim name)) :
    Store.createList unicodeLower s name newId
      = (s, Outcome.alerted "A list with this name already exists") := by
  obtain ⟨l, hl, heq⟩ := hdup
  have hany : s.lists.any (fun list =>
      toLowerCase unicodeLower list.name == toLowerCase unicodeLower (trim name)) = true := by
    simp only [List.any_eq_true, beq_iff_eq]
    exact ⟨l, hl, heq⟩
  unfold Store.createList saveNewList
  simp only [hne, hany, ↓reduceIte]

/-- The rejection of `"  work "` on the default lists, which hold `Work`. -/
theorem createList_duplicate_rejected_witness :
    Store.createList noCaseMap (seedState "a" "b" "c") "  work " "d"
      = (seedState "a" "b" "c", Outcome.alerted "A list with this name already exists") :=
  createList_duplicate_rejected noCaseMap (seedState "a" "b" "c") "  work " "d"
    (by decide) (by decide)

/-- Claim C5: in every state reached from the default lists by calls of the six store
operations, the lower-cased list names are pairwise distinct. -/
theorem run_seed_names_unique (unicodeLower : String → String) (id1 id2 id3 : String)
    (ops : List Op) :
    ((run unicodeLower (seedState id1 id2 id3) ops).lists.map
      (fun l => toLowerCase unicodeLower l.name)).Nodup := by
  have hseed : ((seedState id1 id2 id3).lists.map
      (fun l => toLowerCase unicodeLower l.name)).Nodup := by
    show (["work", "personal", "shopping"] : List String).Nodup
    decide
  unfold run
  generalize seedState id1 id2 id3 = s at hseed
  induction ops generalizing s with
  | nil => exact hseed
  | cons op ops ih => exact ih (step unicodeLower s op) (step_namesUnique unicodeLower s op hseed)

/-- Claim C6 (as stated, refuted): on the default lists the names `" "` and `" Home "` are
non-empty and equal no existing name ignoring case; the first is rejected and the second
gives a list named `"Home"`, not `" Home "`. -/
theorem createList_exact_name_counterexample :
    (" " ≠ "" ∧ ∀ l ∈ (seedState "a" "b" "c").lists,
        toLowerCase noCaseMap l.name ≠ toLowerCase noCaseMap " ")
    ∧ Store.createList noCaseMap (seedState "a" "b" "c") " " "d"
        = (seedState "a" "b" "c", Outcome.alerted "Please enter a list name")
    ∧ (" Home " ≠ ""
        ∧ ∀ l ∈ (seedState "a" "b" "c").lists,
            toLowerCase noCaseMap l.name ≠ toLowerCase noCaseMap " Home ")
    ∧ (Store.createList noCaseMap (seedState "a" "b" "c") " Home " "d").1.lists
        = createDefaultLists "a" "b" "c" ++ [{ id := "d", name := "Home", tasks := [] }] := by
  decide

/-- Claim C6 (amended): for a name whose trimmed form is non-empty and equals no existing
list name ignoring case, `createList` succeeds, and the lists are the previous ones
followed by one new list with the trimmed name and no tasks. -/
theorem createList_appends (unicodeLower : String → String) (s : AppState)
    (name newId : String) (hne : trim name ≠ "")
    (hnew : ∀ l ∈ s.lists,
      toLowerCase unicodeLower l.name ≠ toLowerCase unicodeLower (trim name)) :
    Store.createList unicodeLower s name newId
      = ({ lists := s.lists ++ [{ id := newId, name := trim name, tasks := [] }],
           currentListId := some newId, editingTaskId := s.editingTaskId },
         Outcome.saved) := by
  have hany : s.lists.any (fun list =>
      toLowerCase unicodeLower list.name == toLowerCase unicodeLower (trim name))
      = false := by
    rw [Bool.eq_false_iff]
    intro h
    simp only [List.any_eq_true, beq_iff_eq] at h
    obtain ⟨l, hl, heq⟩ := h
    exact hnew l hl heq
  unfold Store.createList saveNewList
  simp only [hne, hany, ↓reduceIte, selectList, Bool.false_eq_true]

/-- The creation of the list `" Home "` on the default lists. -/
theorem createList_appends_witness :
    Store.createList noCaseMap (seedState "a" "b" "c") " Home " "d"
      = ({ lists := (seedState "a" "b" "c").lists
              ++ [{ id := "d", name := trim " Home ", tasks := [] }],
           currentListId := some "d", editingTaskId := (seedState "a" "b" "c").editingTaskId },
         Outcome.saved) :=
  createList_appends noCaseMap (seedState "a" "b" "c") " Home " "d" (by decide) (by decide)

/-- Claim C7 (as stated, refuted): `createTask` with the title `" x"` and the description
`"d "` stores a task titled `"x"` with the description `"d"`. -/
theorem createTask_given_title_counterexample :
    Store.createTask (seedState "a" "b" "c") "a" " x" "d " none "t" 5
      = ({ lists :=
             [ { id := "a", name := "Work",
                 tasks := [{ id := "t", title := "x", description := "d", dueDate := none,
                             completed := false, createdAt := 5 }] },
               { id := "b", name := "Personal", tasks := [] },
               { id := "c", name := "Shopping", tasks := [] } ],
           currentListId := some "a", editingTaskId := none },
         Outcome.saved)
    ∧ "x" ≠ " x" ∧ "d" ≠ "d " := by
  decide

/-- Claim C7 (amended): for a list id whose first holder is `L` and a title that is non-empty
after trimming, `createTask` succeeds; the tasks of `L` become the previous ones followed
by one new task with the trimmed title, the trimmed description, the given due date,
`completed = false` and the creation time; the other lists are unchanged. -/
theorem createTask_appends (s : AppState) (listId title description : String)
    (dueDate : Option Int) (newId : String) (now : Int)
    (pre : List TodoList) (L : TodoList) (post : List TodoList)
    (hlists : s.lists = pre ++ L :: post) (hpre : ∀ l ∈ pre, l.id ≠ listId)
    (hL : L.id = listId) (htitle : trim title ≠ "") :
    Store.createTask s listId title description dueDate newId now
      = ({ lists := pre ++
             { L with tasks := L.tasks ++
                 [{ id := newId, title := trim title, description := trim description,
                    dueDate := dueDate, completed := false, createdAt := now }] } :: post,
           currentListId := some listId, editingTaskId := none },
         Outcome.saved) := by
  have hp : ∀ y ∈ pre, (fun l : TodoList => some listId == some l.id) y = false := by
    intro y hy
    have := hpre y hy
    simp only [beq_eq_false_iff_ne, ne_eq, Option.some.injEq]
    exact fun h => this h.symm
  have hx : (fun l : TodoList => some listId == some l.id) L = true := by
    simp [hL]
  unfold Store.createTask saveTask
  simp only [htitle, ↓reduceIte, findList, hlists, find_split _ pre L post hp hx, truthy,
    Bool.false_eq_true, updateFirst_split _ _ pre L post hp hx, withTasks]

/-- The creation of a task in the second of the default lists. -/
theorem createTask_appends_witness :
    Store.createTask (seedState "a" "b" "c") "b" " x" "d " (some 7) "t" 5
      = ({ lists := [{ id := "a", name := "Work", tasks := [] }] ++
             { id := "b", name := "Personal",
               tasks := [] ++
                 [{ id := "t", title := trim " x", description := trim "d ",
                    dueDate := some 7, completed := false, createdAt := 5 }] }
             :: [{ id := "c", name := "Shopping", tasks := [] }],
           currentListId := some "b", editingTaskId := none },
         Outcome.saved) :=
  createTask_appends (seedState "a" "b" "c") "b" " x" "d " (some 7) "t" 5
    [{ id := "a", name := "Work", tasks := [] }] { id := "b", name := "Personal", tasks := [] }
    [{ id := "c", name := "Shopping", tasks := [] }] rfl (by decide) rfl (by decide)

/-- Claim C8 (as stated, refuted): `updateTask` with the title `" z"` and the description
`"d "` leaves the task with the title `"z"` and the description `"d"`. -/
theorem updateTask_given_title_counterexample :
    (Store.updateTask sampleState "a" "t" " z" "d " (some 3) "n" 9).1.lists
      = [ { id := "a", name := "Work",
            tasks := [ { id := "t", title := "z", description := "d", dueDate := some 3,
                         completed := false, createdAt := 1 },
                       { id := "u", title := "y", description := "", dueDate := none,
                         completed := true, createdAt := 2 } ] } ]
    ∧ "z" ≠ " z" ∧ "d" ≠ "d " := by
  decide

/-- Claim C8 (amended): for a list id whose first holder is `L`, a non-empty task id whose
first holder in `L` is `T`, and a title that is non-empty after trimming, `updateTask`
succeeds and replaces `T`, at its position, by `T` with the trimmed title, the trimmed
description and the given due date, `id`, `completed` and `createdAt` as they were; the
other tasks and the other lists are unchanged. When the trimmed title is the title `T`
has and the due date is the one `T` has, only the description of `T` changes. -/
theorem updateTask_overwrites (s : AppState) (listId taskId title description : String)
    (dueDate : Option Int) (newId : String) (now : Int)
    (pre : List TodoList) (L : TodoList) (post : List TodoList)
    (tpre : List Task) (T : Task) (tpost : List Task)
    (hlists : s.lists = pre ++ L :: post) (hpre : ∀ l ∈ pre, l.id ≠ listId)
    (hL : L.id = listId) (htasks : L.tasks = tpre ++ T :: tpost)
    (htpre : ∀ t ∈ tpre, t.id ≠ taskId) (hT : T.id = taskId) (hid : taskId ≠ "")
    (htitle : trim title ≠ "") :
    Store.updateTask s listId taskId title description dueDate newId now
      = ({ lists := pre ++
             { L with tasks := tpre ++
                 { id := T.id, title := trim title, description := trim description,
                   dueDate := dueDate, completed := T.completed, createdAt := T.createdAt }
                 :: tpost } :: post,
           currentListId := some listId, editingTaskId := none },
         Outcome.saved)
    ∧ (trim title = T.title → dueDate = T.dueDate →
        (Store.updateTask s listId taskId title description dueDate newId now).1.lists
          = pre ++ { L with tasks := tpre ++ { T with description := trim description }
                        :: tpost } :: post) := by
  have hp : ∀ y ∈ pre, (fun l : TodoList => some listId == some l.id) y = false := by
    intro y hy
    have := hpre y hy
    simp only [beq_eq_false_iff_ne, ne_eq, Option.some.injEq]
    exact fun h => this h.symm
  have hx : (fun l : TodoList => some listId == some l.id) L = true := by
    simp [hL]
  have htp : ∀ y ∈ tpre, (fun t : Task => some taskId == some t.id) y = false := by
    intro y hy
    have := htpre y hy
    simp only [beq_eq_false_iff_ne, ne_eq, Option.some.injEq]
    exact fun h => this h.symm
  have htx : (fun t : Task => some taskId == some t.id) T = true := by
    simp [hT]
  have htr : truthy (some taskId) = true := by
    simp [truthy, hid]
  have hmain : Store.updateTask s listId taskId title description dueDate newId now
      = ({ lists := pre ++
             { L with tasks := tpre ++
                 { id := T.id, title := trim title, description := trim description,
                   dueDate := dueDate, completed := T.completed, createdAt := T.createdAt }
                 :: tpost } :: post,
           currentListId := some listId, editingTaskId := none },
         Outcome.saved) := by
    unfold Store.updateTask saveTask
    simp only [htitle, ↓reduceIte, findList, hlists, find_split _ pre L post hp hx, htr,
      updateFirst_split _ _ pre L post hp hx, withTasks, htasks,
      updateFirst_split _ _ tpre T tpost htp htx, overwriteTask]
  refine ⟨hmain, ?_⟩
  intro h1 h2
  rw [hmain, h1, h2]

/-- An update of the second task of the sample state that changes its description only. -/
theorem updateTask_overwrites_witness :
    (Store.updateTask sampleState "a" "u" "y" " d" none "n" 9).1.lists
      = [] ++ { id := "a", name := "Work",
                tasks := [ { id := "t", title := "x", description := "", dueDate := some 3,
                             completed := false, createdAt := 1 } ] ++
                  { id := "u", title := "y", description := trim " d", dueDate := none,
                    completed := true, createdAt := 2 } :: [] } :: [] :=
  (updateTask_overwrites sampleState "a" "u" "y" " d" none "n" 9
    [] { id := "a", name := "Work", tasks := _ } []
    [ { id := "t", title := "x", description := "", dueDate := some 3,
        completed := false, createdAt := 1 } ]
    { id := "u", title := "y", description := "", dueDate := none,
      completed := true, createdAt := 2 } []
    rfl (by decide) rfl rfl (by decide) rfl (by decide) (by decide)).2 (by decide) rfl

/-- Claim C9: `toggleComplete` applied twice in a row gives back the lists of the store,
for every state, list id and task id; and for a list id whose first holder is `L` and a
task id whose first holder in `L` is `T`, one application replaces `T`, at its position,
by `T` with `completed` negated and every other field as it was, and changes no other task
and no other list. -/
theorem toggleComplete_twice_and_frame (s : AppState) (listId taskId : String) :
    (Store.toggleComplete (Store.toggleComplete s listId taskId).1 listId taskId).1.lists
      = s.lists
    ∧ ∀ (pre : List TodoList) (L : TodoList) (post : List TodoList)
        (tpre : List Task) (T : Task) (tpost : List Task),
        s.lists = pre ++ L :: post → (∀ l ∈ pre, l.id ≠ listId) → L.id = listId →
        L.tasks = tpre ++ T :: tpost → (∀ t ∈ tpre, t.id ≠ taskId) → T.id = taskId →
        Store.toggleComplete s listId taskId
          = ({ lists := pre ++
                 { L with tasks := tpre ++
                     { id := T.id, title := T.title, description := T.description,
                       dueDate := T.dueDate, completed := !T.completed,
                       createdAt := T.createdAt } :: tpost } :: post,
               currentListId := some listId, editingTaskId := s.editingTaskId },
             Outcome.saved) := by
  constructor
  · unfold Store.toggleComplete
    have h1 := toggleTaskComplete_lists (selectList s listId) taskId
    have hsel : selectList (toggleTaskComplete (selectList s listId) taskId).1 listId
        = (toggleTaskComplete (selectList s listId) taskId).1 := by
      have h2 : (toggleTaskComplete (selectList s listId) taskId).1.currentListId
          = some listId := h1.2
      generalize (toggleTaskComplete (selectList s listId) taskId).1 = r at h2
      cases r
      simp only [selectList] at h2 ⊢
      rw [h2]
    rw [hsel, (toggleTaskComplete_lists _ taskId).1, h1.1, h1.2]
    simp only [selectList]
    rw [updateFirst_twice (fun l : TodoList => some listId == some l.id)
      (withTasks (updateFirst (fun t => t.id == taskId) flipCompleted)) (fun x => rfl)]
    apply updateFirst_self
    intro l _
    simp only [withTasks]
    rw [updateFirst_twice (fun t : Task => t.id == taskId) flipCompleted (fun x => rfl)]
    rw [updateFirst_self _ _ _ (fun t _ => flipCompleted_twice t)]
  · intro pre L post tpre T tpost hlists hpre hL htasks htpre hT
    have hp : ∀ y ∈ pre, (fun l : TodoList => some listId == some l.id) y = false := by
      intro y hy
      have := hpre y hy
      simp only [beq_eq_false_iff_ne, ne_eq, Option.some.injEq]
      exact fun h => this h.symm
    have hx : (fun l : TodoList => some listId == some l.id) L = true := by
      simp [hL]
    have htp : ∀ y ∈ tpre, (fun t : Task => t.id == taskId) y = false := by
      intro y hy
      have := htpre y hy
      simpa using this
    have htx : (fun t : Task => t.id == taskId) T = true := by
      simp [hT]
    unfold Store.toggleComplete toggleTaskComplete
    simp only [findList, selectList, hlists, find_split _ pre L post hp hx, htasks,
      find_split _ tpre T tpost htp htx, updateFirst_split _ _ pre L post hp hx, withTasks,
      updateFirst_split _ _ tpre T tpost htp htx, flipCompleted]

/-- The toggle of the second task of the sample state, once and twice. -/
theorem toggleComplete_twice_and_frame_witness :
    (Store.toggleComplete (Store.toggleComplete sampleState "a" "u").1 "a" "u").1.lists
      = sampleState.lists
    ∧ Store.toggleComplete sampleState "a" "u"
      = ({ lists := [] ++
             { id := "a", name := "Work",
               tasks := [ { id := "t", title := "x", description := "", dueDate := some 3,
                            completed := false, createdAt := 1 } ] ++
                 { id := "u", title := "y", description := "", dueDate := none,
                   completed := !true, createdAt := 2 } :: [] } :: [],
           currentListId := some "a", editingTaskId := sampleState.editingTaskId },
         Outcome.saved) :=
  ⟨(toggleComplete_twice_and_frame sampleState "a" "u").1,
   (toggleComplete_twice_and_frame sampleState "a" "u").2
    [] { id := "a", name := "Work", tasks := _ } []
    [ { id := "t", title := "x", description := "", dueDate := some 3,
        completed := false, createdAt := 1 } ]
    { id := "u", title := "y", description := "", dueDate := none,
      completed := true, createdAt := 2 } []
    rfl (by decide) rfl rfl (by decide) rfl⟩

/-- Claim C10 (as stated, refuted): after `deleteList` on the only list, `createTask` on the
deleted id with an empty title leaves at the title alert, not at the list lookup. -/
theorem createTask_after_delete_counterexample :
    (Store.deleteList singleListState "a").1.lists = []
    ∧ Store.createTask (Store.deleteList singleListState "a").1 "a" "" "" none "t" 5
        = ({ lists := [], currentListId := some "a", editingTaskId := none },
           Outcome.alerted "Please enter a task title")
    ∧ Outcome.alerted "Please enter a task title" ≠ Outcome.listMissing := by
  decide

/-- Claim C10 (amended): for a non-empty id that some list has, `deleteList` succeeds and leaves
the lists with another id, in their order (none, when every list had the id). A later
`createTask` on that id leaves the lists unchanged: with a title that is empty after
trimming it stops at the title alert, otherwise at the list lookup, which finds no list. -/
theorem deleteList_then_createTask (s : AppState) (listId : String)
    (hid : listId ≠ "") (hex : ∃ l ∈ s.lists, l.id = listId) :
    (Store.deleteList s listId).2 = Outcome.saved
    ∧ (Store.deleteList s listId).1.lists = s.lists.filter (fun l => l.id != listId)
    ∧ (∀ l ∈ (Store.deleteList s listId).1.lists, l.id ≠ listId)
    ∧ ((∀ l ∈ s.lists, l.id = listId) → (Store.deleteList s listId).1.lists = [])
    ∧ ∀ (title description : String) (dueDate : Option Int) (newId : String) (now : Int),
        (Store.createTask (Store.deleteList s listId).1 listId title description dueDate
            newId now).1.lists = (Store.deleteList s listId).1.lists
        ∧ (Store.createTask (Store.deleteList s listId).1 listId title description dueDate
            newId now).2
          = if trim title = "" then Outcome.alerted "Please enter a task title"
            else Outcome.listMissing := by
  have hfilter : s.lists.filter (fun l => some listId != some l.id)
      = s.lists.filter (fun l => l.id != listId) := by
    congr 1
    funext l
    by_cases h : l.id = listId
    · simp [h]
    · have h2 : ¬ listId = l.id := fun e => h e.symm
      have e1 : (some listId != some l.id) = true := by simpa using h2
      have e2 : (l.id != listId) = true := by simpa using h
      rw [e1, e2]
  have hfound : ∃ l, findList (selectList s listId) = some l := by
    obtain ⟨l, hl, hleq⟩ := hex
    cases hf : findList (selectList s listId) with
    | some x => exact ⟨x, rfl⟩
    | none =>
      exfalso
      unfold findList at hf
      have := List.find?_eq_none.mp hf l hl
      simp [selectList, hleq] at this
  obtain ⟨l0, hl0⟩ := hfound
  have htruthy : truthy (selectList s listId).currentListId = true := by
    simp [selectList, truthy, hid]
  have hdel : (Store.deleteList s listId).2 = Outcome.saved
      ∧ (Store.deleteList s listId).1.lists = s.lists.filter (fun l => l.id != listId) := by
    unfold Store.deleteList deleteCurrentList
    simp only [htruthy, hl0, Bool.not_true, Bool.false_eq_true, ↓reduceIte]
    rw [← hfilter]
    simp only [selectList]
    split
    · exact ⟨rfl, rfl⟩
    · exact ⟨rfl, rfl⟩
  have hnone : ∀ l ∈ (Store.deleteList s listId).1.lists, l.id ≠ listId := by
    intro l hl
    rw [hdel.2] at hl
    have := (List.mem_filter.mp hl).2
    simpa using this
  refine ⟨hdel.1, hdel.2, hnone, ?_, ?_⟩
  · intro hall
    rw [hdel.2]
    apply List.filter_eq_nil_iff.mpr
    intro l hl
    simp [hall l hl]
  · intro title description dueDate newId now
    have hmiss : findList { (Store.deleteList s listId).1 with
        currentListId := some listId, editingTaskId := none } = none := by
      unfold findList
      apply List.find?_eq_none.mpr
      intro l hl
      have := hnone l hl
      simp only [beq_iff_eq, Option.some.injEq]
      exact fun e => this e.symm
    unfold Store.createTask saveTask
    by_cases ht : trim title = ""
    · simp only [ht, ↓reduceIte, and_self]
    · simp only [ht, ↓reduceIte, hmiss, and_self]

/-- The deletion of the only list, and a `createTask` on its id afterwards. -/
theorem deleteList_then_createTask_witness :
    (Store.deleteList singleListState "a").2 = Outcome.saved
    ∧ (Store.deleteList singleListState "a").1.lists = []
    ∧ (Store.createTask (Store.deleteList singleListState "a").1 "a" "x" "" none "t"
          5).1.lists = (Store.deleteList singleListState "a").1.lists
    ∧ (Store.createTask (Store.deleteList singleListState "a").1 "a" "x" "" none "t" 5).2
        = if trim "x" = "" then Outcome.alerted "Please enter a task title"
          else Outcome.listMissing :=
  ⟨(deleteList_then_createTask singleListState "a" (by decide) (by decide)).1,
   (deleteList_then_createTask singleListState "a" (by decide) (by decide)).2.2.2.1
     (by decide),
   ((deleteList_then_createTask singleListState "a" (by decide) (by decide)).2.2.2.2
     "x" "" none "t" 5).1,
   ((deleteList_then_createTask singleListState "a" (by decide) (by decide)).2.2.2.2
     "x" "" none "t" 5).2⟩

end Todo
